import Mathlib

/-!
# BioCatalyzer — verification of the natural-language specification

Shallow embedding of the core logic of the BioCatalyzer package
(candidate generation, product filtering, result reconciliation and
mass matching) together with proofs and refutations of the spec claims.

External chemistry operations (RDKit) are modelled as an abstract
`Adapter` record of functions; everything the repository itself computes
(string handling, filtering logic, control flow, merging, matching) is
translated directly from the Python source:
  * `src/biocatalyzer/chem/_utils.py`      — `_correct_number_of_parenthesis`
  * `src/biocatalyzer/chem/chem_utils.py`  — `ChemUtils`
  * `src/biocatalyzer/bioreactor.py`       — `BioReactor`
  * `src/biocatalyzer/matcher.py`          — `MSDataMatcher`
  * `src/biocatalyzer/io_utils/loaders.py` — `Loaders`
Python floats are modelled as `ℚ`; fallible operations return `Option`.
-/

namespace BioCat

/-! ## Executable string primitives

Python string operations used by the source (`split`, `replace`,
`in`, `join`, `startswith`), modelled structurally on the character
list of the string so that concrete runs reduce inside the kernel. -/

/-- Python `s.split(sep)` for a one-character separator, on character
lists: `"" → [""]`, and every separator occurrence opens a new group. -/
def split_char (sep : Char) : List Char → List (List Char)
  | [] => [[]]
  | c :: rest =>
    if c = sep then [] :: split_char sep rest
    else
      match split_char sep rest with
      | [] => [[c]]
      | g :: gs => (c :: g) :: gs

/-- Python `s.split(sep)` for a one-character separator (all separator
uses in the source are one character: `;`, `>`, `.`, `_`). -/
def str_split (s : String) (sep : Char) : List String :=
  (split_char sep s.toList).map (fun l => ⟨l⟩)

/-- Fuelled core of `str_replace`; the fuel starts at the string length
and each step consumes at least one character, so the fuel never runs
out on the initial call. -/
def replace_go (pat rep : List Char) : Nat → List Char → List Char
  | _, [] => []
  | 0, l => l
  | n + 1, c :: rest =>
    if pat ≠ [] ∧ pat.isPrefixOf (c :: rest) then
      rep ++ replace_go pat rep n ((c :: rest).drop pat.length)
    else c :: replace_go pat rep n rest

/-- Python `s.replace(pat, rep)`: replace every non-overlapping
occurrence of `pat`, scanning left to right (the source only replaces
the non-empty template token `"Any"`). -/
def str_replace (s pat rep : String) : String :=
  ⟨replace_go pat.toList rep.toList s.toList.length s.toList⟩

/-- Python `sep.join(parts)`. -/
def str_intercalate (sep : String) : List String → String
  | [] => ""
  | [s] => s
  | s :: rest => s ++ sep ++ str_intercalate sep rest

/-- Python `c in s` for a single character `c`. -/
def str_contains (s : String) (c : Char) : Bool :=
  s.toList.contains c

/-- Python `s.startswith(pre)`. -/
def starts_with (s pre : String) : Bool :=
  pre.toList.isPrefixOf s.toList

/-! ## `chem/_utils.py`: `_correct_number_of_parenthesis` -/

/-- One element of the loop body of `_correct_number_of_parenthesis`
(`chem/_utils.py`, lines 16-23): if the total number of `(` and `)`
characters is odd, strip a single leading `(` or else a single trailing
`)`; otherwise leave the string unchanged. -/
def correct_parenthesis (p : String) : String :=
  if (p.toList.count '(' + p.toList.count ')') % 2 ≠ 0 then
    if p.toList.head? = some '(' then ⟨p.toList.tail⟩
    else if p.toList.getLast? = some ')' then ⟨p.toList.dropLast⟩
    else p
  else p

/-- `_correct_number_of_parenthesis` (`chem/_utils.py`, lines 4-24):
applies the correction to every SMILES string of the list. -/
def correct_number_of_parenthesis (smiles_list : List String) : List String :=
  smiles_list.map correct_parenthesis

/-! ## Field merging used by reconciliation (`BioReactor.process_results`) -/

/-- Duplicate removal keeping the first occurrence of each element
(the semantics of the joined-field dedup performed by `_merge_fields`,
whose tests require order of first appearance to be preserved). -/
def dedup_first {α : Type} [DecidableEq α] : List α → List α
  | [] => []
  | a :: l => a :: dedup_first (l.filter (fun b => b ≠ a))
termination_by l => l.length
decreasing_by
  simp only [List.length_cons]
  exact Nat.lt_succ_of_le (List.length_filter_le _ _)

/-- Cleaning step of `_merge_fields`: drop empty fields, then remove
duplicates keeping first appearance. -/
def clean_dedup (l : List String) : List String :=
  dedup_first (l.filter (fun s => s ≠ ""))

/-- Modelled from the spec: `_merge_fields` is imported by
`bioreactor.py` from `biocatalyzer/_utils.py`, a file whose merge
helpers are absent from `src/` (only its unit tests
`tests/unit_tests/test_utils.py` and its callers are present).  Per the
spec (§4.3): joined provenance fields are "semicolon-joined, duplicates
removed", order of first appearance preserved, and "empty-after-clean
collapses to a defined 'no data' marker" (`NaN`, modelled as `none`).
The argument is the list of `;`-separated components of the joined
string; the result is the re-joined field. -/
def merge_fields (parts : List String) : Option String :=
  match clean_dedup parts with
  | [] => none
  | r => some (str_intercalate ";" r)

/-! ## The Molecular Operations Adapter

RDKit molecules, SMARTS patterns and reactions are opaque values; the
external chemistry operations the source calls on them are collected in
an `Adapter` record.  The repository's own logic is then defined over an
arbitrary adapter. -/

/-- An opaque RDKit molecule: an identity tag plus the two observations
the core logic reads off it (heavy-atom count, exact mass rounded by
`calc_exact_mass`). -/
structure Mol where
  mid : Nat
  heavy : Nat
  mass : ℚ
deriving DecidableEq, Repr

/-- An opaque SMARTS pattern (`MolFromSmarts` result). -/
structure SPattern where
  pid : Nat
deriving DecidableEq, Repr

/-- An opaque RDKit reaction (`ReactionFromSmarts` result). -/
structure Rxn where
  rid : Nat
deriving DecidableEq, Repr

/-- The external chemistry operations used by the source:
`MolFromSmiles`, `MolToSmiles ∘ RemoveHs`, fingerprint similarity,
`Uncharger.uncharge`, `HasSubstructMatch`, `ReactionFromSmarts`, and
`RunReactants` plus reaction-SMILES serialization and set-dedup
(`_create_reaction_instances`, whose `ValueError` is an `Except.error`). -/
structure Adapter where
  parse : String → Option Mol
  to_smiles : Mol → String
  fp_sim : Mol → Mol → ℚ
  uncharge_mol : Mol → Mol
  has_substruct : Mol → SPattern → Bool
  parse_rxn : String → Option Rxn
  run_rxn : Rxn → List Mol → Except Unit (List String)

/-- Modelled from the spec: `ChemUtils.smiles_to_mol` is called by
`BioReactor._match_patterns` and `_min_atom_count_filter` but absent
from `src/` (only callers present); the spec's Adapter exposes
`parse(textual structure) → structure|invalid`. -/
def smiles_to_mol (A : Adapter) (s : String) : Option Mol :=
  A.parse s

/-- Modelled from the spec: `ChemUtils.smiles_to_isomerical_smiles` is
called by `BioReactor._react_single` but absent from `src/` (only the
`Mol`-level `mol_to_isomerical_smiles` is present, returning `None` for
an invalid molecule); the spec's Adapter exposes
`canonicalize(structure) → textual structure` after a `parse` that may
fail, so the composite returns `none` on an unparseable string. -/
def smiles_to_isomerical_smiles (A : Adapter) (s : String) : Option String :=
  (A.parse s).map A.to_smiles

/-! ## `chem/chem_utils.py`: `ChemUtils` -/

/-- `ChemUtils.calc_exact_mass` (lines 181-197): parse, and on success
the exact molecular weight (the `round(_, 4)` is folded into the
adapter-provided `Mol.mass`); `None` on parse failure. -/
def calc_exact_mass (A : Adapter) (smiles : String) : Option ℚ :=
  (A.parse smiles).map (fun m => m.mass)

/-- `ChemUtils.match_masses` (lines 199-207).  Note the Python guard
`if mass:` which is false both for `None` and for a computed mass equal
to `0.0`. -/
def match_masses (A : Adapter) (smiles : String) (masses : Option (List ℚ))
    (mass_tolerance : ℚ) : Bool × Option ℚ :=
  let mass := calc_exact_mass A smiles
  match masses with
  | none => (true, mass)
  | some ms =>
    match mass with
    | some v =>
      if v ≠ 0 then
        (ms.any (fun m => decide (v - mass_tolerance ≤ m) && decide (m ≤ v + mass_tolerance)),
         mass)
      else (false, mass)
    | none => (false, mass)

/-- `ChemUtils.uncharge_smiles` (lines 160-178): parse, neutralize and
re-serialize; an unparseable string is returned unchanged. -/
def uncharge_smiles (A : Adapter) (smiles : String) : String :=
  match A.parse smiles with
  | some m => A.to_smiles (A.uncharge_mol m)
  | none => smiles

/-- `ChemUtils.calc_fingerprint_similarity` (lines 209-231): similarity
of the two fingerprints, `0.0` whenever either SMILES fails to parse. -/
def calc_fingerprint_similarity (A : Adapter) (smiles1 smiles2 : String) : ℚ :=
  match A.parse smiles1, A.parse smiles2 with
  | some m1, some m2 => A.fp_sim m1 m2
  | _, _ => 0

/-- Python's `max` on a list of floats (`max(sims)`); `0` on the empty
list, where Python would raise instead (never reached by the source:
`most_similar_compound` is only called on non-empty lists). -/
def list_max : List ℚ → ℚ
  | [] => 0
  | a :: l => l.foldl max a

/-- Python's `list.index(v)`: index of the first occurrence of `v`
(length of the list if absent, where Python raises instead — unreached,
the source only looks up `max(sims)` which occurs in `sims`). -/
def index_of_q (v : ℚ) : List ℚ → Nat
  | [] => 0
  | a :: l => if a = v then 0 else index_of_q v l + 1

/-- `ChemUtils.most_similar_compound` (lines 233-255): normalize the
parentheses of every candidate, return the sole candidate if there is
exactly one, otherwise the first candidate of maximal fingerprint
similarity to `smiles`. -/
def most_similar_compound (A : Adapter) (smiles : String) (smiles_list : List String) :
    String :=
  let l := correct_number_of_parenthesis smiles_list
  if l.length = 1 then l.getD 0 ""
  else
    let sims := l.map (calc_fingerprint_similarity A smiles)
    l.getD (index_of_q (list_max sims) sims) ""

/-- `ChemUtils.react` (lines 103-130): parse every reactant and the
reaction SMARTS; any failure yields the empty product list (`some []`);
a `ValueError` escaping `_create_reaction_instances` yields Python
`None` (`none` here).  The bioreactor always passes a list of reactant
SMILES, so only the list branch is modelled. -/
def react (A : Adapter) (smiles : List String) (smarts : String) : Option (List String) :=
  let mol := smiles.map A.parse
  let reaction := A.parse_rxn smarts
  if none ∈ mol ∨ reaction = none then some []
  else
    match reaction with
    | none => some []
    | some rxn =>
      match A.run_rxn rxn mol.reduceOption with
      | .ok res => some res
      | .error _ => none

/-! ## `bioreactor.py`: the Product Filter Pipeline -/

/-- The filter-pipeline configuration of a `BioReactor` instance:
`self._min_atom_count`, `self._molecules_to_remove` (loaded by
`Loaders.load_byproducts_to_remove` as a list of `Mol` objects, lines
123-143 of `io_utils/loaders.py`), `self._patterns_to_remove` (loaded
as `MolFromSmarts` patterns), and `self._neutralize`. -/
structure Config where
  min_atom_count : Nat
  molecules_to_remove : List Mol
  patterns_to_remove : List SPattern
  neutralize : Bool

/-- A Python value showing up in the byproduct membership test
`smiles in self._molecules_to_remove`: either a `str` or an RDKit
`Mol`. -/
inductive PyVal where
  | pstr : String → PyVal
  | pmol : Mol → PyVal

/-- Python `==` on those values: strings compare by content, two `Mol`
objects by identity (over-approximated by structural equality, which
only favours the equality), and a `str` never equals a `Mol` (neither
type implements a cross-type `__eq__`, so `==` falls back to identity,
which is false). -/
def py_eq : PyVal → PyVal → Bool
  | .pstr a, .pstr b => a == b
  | .pmol a, .pmol b => a == b
  | _, _ => false

/-- `BioReactor._match_byproducts` (lines 466-485): Python's
`smiles in self._molecules_to_remove` where the list holds `Mol`
objects. -/
def match_byproducts (cfg : Config) (smiles : String) : Bool :=
  if cfg.molecules_to_remove.length = 0 then false
  else if cfg.molecules_to_remove.any (fun m => py_eq (.pstr smiles) (.pmol m)) then true
  else false

/-- `BioReactor._match_patterns` (lines 420-442): with a non-empty
pattern list, an unparseable SMILES counts as a match (conservative
reject); otherwise any substructure hit counts. -/
def match_patterns (A : Adapter) (cfg : Config) (smiles : String) : Bool :=
  if cfg.patterns_to_remove.length = 0 then false
  else
    match smiles_to_mol A smiles with
    | none => true
    | some mol => cfg.patterns_to_remove.any (fun bp => A.has_substruct mol bp)

/-- `BioReactor._min_atom_count_filter` (lines 444-464): parse failure
fails the filter; otherwise compare the heavy-atom count against the
threshold. -/
def min_atom_count_filter (A : Adapter) (cfg : Config) (smiles : String) : Bool :=
  match smiles_to_mol A smiles with
  | none => false
  | some mol => decide (mol.heavy ≥ cfg.min_atom_count)

/-- `BioReactor._match_conditions` (lines 487-514).  The argument may be
Python `None` (the canonicalization result), which is falsy — as is the
empty string. -/
def match_conditions (A : Adapter) (cfg : Config) : Option String → Bool
  | none => false
  | some s =>
    if s = "" then false
    else if str_contains s '*' then false
    else if cfg.min_atom_count > 0 && !min_atom_count_filter A cfg s then false
    else if cfg.molecules_to_remove.length > 0 && match_byproducts cfg s then false
    else if cfg.patterns_to_remove.length > 0 && match_patterns A cfg s then false
    else true

/-! ## `bioreactor.py`: `BioReactor._react_single` -/

/-- One reaction rule as resolved from the rules table for a given
SMARTS (`InternalID`, `Reactants`, `SMARTS`, `EC_Numbers`). -/
structure Rule where
  internal_id : String
  reactants : String
  smarts : String
  ec_numbers : String
deriving DecidableEq, Repr

/-- One line appended to `new_compounds.tsv` by `_react_single`
(line 606): the seven tab-separated fields. -/
structure Row where
  original_id : String
  original_smiles : String
  rule_id : String
  new_id : String
  product_smiles : String
  reaction_smiles : String
  ec_numbers : String
deriving DecidableEq, Repr

/-- The `for i, result in enumerate(results)` loop of `_react_single`
(lines 593-610), with the `most_similar_products_set` threaded as
`seen` and the appended file lines accumulated in `acc`.  The random
`uuid.uuid4()` suffix of `NewCompoundID` is modelled by the
deterministic counter `acc.length`. -/
def react_loop (A : Adapter) (cfg : Config) (rule : Rule) (cid smiles : String) :
    List String → List (Option String) → List Row → List Row
  | [], _, acc => acc
  | result :: rest, seen, acc =>
    let products := str_split ((str_split result '>').getLastD "") '.'
    let msp := smiles_to_isomerical_smiles A (most_similar_compound A smiles products)
    if msp ∈ seen then react_loop A cfg rule cid smiles rest seen acc
    else
      if match_conditions A cfg msp then
        let s := msp.getD ""
        let final := if cfg.neutralize then uncharge_smiles A s else s
        react_loop A cfg rule cid smiles rest (msp :: seen)
          (acc ++ [⟨cid, smiles, rule.internal_id, cid ++ "_" ++ toString acc.length,
                   final, result, rule.ec_numbers⟩])
      else react_loop A cfg rule cid smiles rest (msp :: seen) acc

/-- `BioReactor._react_single` (lines 575-610): resolve the reactant
template (`"Any"` replaced by the compound under test, `;`-split),
run `ChemUtils.react`, then filter and record each outcome.  A Python
`None` from `react` makes `len(results)` raise, modelled as `none`;
the `if len(results) > 0` guard is extensionally the loop on `[]`. -/
def react_single (A : Adapter) (cfg : Config) (rule : Rule) (cid smiles : String) :
    Option (List Row) :=
  let reactants := str_split (str_replace rule.reactants "Any" smiles) ';'
  match react A reactants rule.smarts with
  | none => none
  | some results => some (react_loop A cfg rule cid smiles results [] [])

/-! ## `bioreactor.py`: `BioReactor.process_results` (Reconciliation) -/

/-- One row of `new_compounds.tsv` as read back by `process_results`,
with the `EC_Numbers` field already `fillna('')`-cleaned and given as
its `;`-split component list (the field is `;`-joined across rows
before `_merge_fields` re-splits it, so the split list is the faithful
unit of accumulation). -/
structure RawRow where
  original_id : String
  original_smiles : String
  rule_id : String
  new_id : String
  product_smiles : String
  reaction_smiles : String
  ecs : List String
deriving DecidableEq, Repr

/-- One reconciled Product: the output row of `process_results` for one
`(OriginalCompoundID, NewCompoundSmiles)` group; joined fields are
`none` when `_merge_fields` collapsed them to `NaN`. -/
structure Product where
  original_id : String
  original_smiles : String
  rule_ids : Option String
  new_id : String
  product_smiles : String
  reaction_ids : Option String
  ec_numbers : Option String
deriving DecidableEq, Repr

/-- `BioReactor.process_results` (lines 532-573) restricted to one
group of rows sharing the key `(key_id, key_smiles)`: `first` for
`OriginalCompoundSmiles` and `NewCompoundID`, `';'.join` then
`_merge_fields` for the three provenance fields (pandas `groupby`
preserves the original row order inside a group). -/
def process_group (key_id key_smiles : String) (rows : List RawRow) : Product :=
  { original_id := key_id
    original_smiles := (rows.map (fun r => r.original_smiles)).headD ""
    rule_ids := merge_fields (rows.map (fun r => r.rule_id))
    new_id := (rows.map (fun r => r.new_id)).headD ""
    product_smiles := key_smiles
    reaction_ids := merge_fields (rows.map (fun r => r.reaction_smiles))
    ec_numbers := merge_fields ((rows.map (fun r => r.ecs)).flatten) }

/-- The binary field-level merge underlying `process_group`: the §4.3
`merge(existing, incoming)` on one semicolon-joined provenance field,
both sides given as component lists. -/
def merge_join (xs ys : List String) : List String :=
  dedup_first (xs ++ ys)

/-! ## `matcher.py`: `MSDataMatcher` -/

/-- One row of the reference MS table (`load_ms_data`): parent
compound id, parent SMILES and the mode's numeric column (`Mass` or
`MassDiff`). -/
structure MSRow where
  parent_compound : String
  parent_smiles : String
  ref_value : ℚ
deriving DecidableEq, Repr

/-- One row of the new-compounds table as consumed by `_match_masses`,
with `NewCompoundExactMass` already computed by `_prepare_mode`. -/
structure CompRow where
  new_id : String
  new_smiles : String
  exact_mass : ℚ
  ec_numbers : String
deriving DecidableEq, Repr

/-- One row appended to the matches table by `_match_masses`
(lines 301-308). -/
structure MatchRecord where
  parent_compound : String
  parent_smiles : String
  parent_exact_mass : Option ℚ
  ms_value : ℚ
  new_id : String
  new_smiles : String
  new_mass : ℚ
  ec_numbers : String
deriving DecidableEq, Repr

/-- Index of the first reference value within tolerance of `v`
(`none` if there is none). -/
def first_within (v tol : ℚ) : List ℚ → Option Nat
  | [] => none
  | m :: rest =>
    if |v - m| ≤ tol then some 0
    else (first_within v tol rest).map (fun i => i + 1)

/-- Modelled from the spec: `match_value` is imported by `matcher.py`
from `biocatalyzer/_utils.py`, absent from `src/` (only its unit tests
and callers are present).  The spec's matching criterion is "include it
in the result iff `|product_mass - reference_mass| <= tolerance`
(inclusive bounds)"; the caller `MSDataMatcher._match_masses` unpacks
the result as a `(found, index)` pair, so the scan is modelled as
returning the first in-tolerance index. -/
def match_value (v : ℚ) (vals : List ℚ) (tol : ℚ) : Bool × Option Nat :=
  match first_within v tol vals with
  | some i => (true, some i)
  | none => (false, none)

/-- The parent-compound id recovered from a generated product id:
`'_'.join(row['NewCompoundID'].split('_')[:-1])` (line 300). -/
def parent_of (new_id : String) : String :=
  str_intercalate "_" ((str_split new_id '_').dropLast)

/-- The matches-table row built from a reference row and a product row
(lines 301-308). -/
def match_record_row (A : Adapter) (ref : MSRow) (row : CompRow) : MatchRecord :=
  ⟨ref.parent_compound, ref.parent_smiles, calc_exact_mass A ref.parent_smiles,
   ref.ref_value, row.new_id, row.new_smiles, row.exact_mass, row.ec_numbers⟩

/-- One iteration of the `_match_masses` loop (lines 298-308): look up
the single index returned by `match_value` and emit one record iff the
provenance gate `ms_data.loc[mi, 'ParentCompound'] == parent` holds. -/
def match_one_compound (A : Adapter) (ms_data : List MSRow) (tol : ℚ) (row : CompRow) :
    Option MatchRecord :=
  match match_value row.exact_mass (ms_data.map (fun r => r.ref_value)) tol with
  | (true, some i) =>
    match ms_data.get? i with
    | some ref =>
      if ref.parent_compound = parent_of row.new_id then some (match_record_row A ref row)
      else none
    | none => none
  | _ => none

/-- `MSDataMatcher._match_masses` (lines 286-309): the loop over the
new-compounds rows, appending at most one record per row. -/
def matcher_match_masses (A : Adapter) (ms_data : List MSRow) (rows : List CompRow)
    (tol : ℚ) : List MatchRecord :=
  rows.filterMap (match_one_compound A ms_data tol)

/-! ## Concrete instances used to evaluate the embedding -/

/-- A small concrete adapter: five known SMILES strings parse (any
string beginning with `M` is the canonical serialization), everything
else is invalid; one reaction `S1` applies and yields the single
outcome `B>>P`. -/
def cA : Adapter where
  parse s :=
    if s = "B" then some ⟨2, 3, 10⟩
    else if s = "P" then some ⟨3, 4, 12⟩
    else if s = "O" then some ⟨5, 1, 18⟩
    else if s = "Z" then some ⟨0, 0, 0⟩
    else if starts_with s "M" then some ⟨1, 3, 10⟩
    else none
  to_smiles _ := "M"
  fp_sim _ _ := 1
  uncharge_mol m := m
  has_substruct _ _ := false
  parse_rxn s := if s = "S1" then some ⟨1⟩ else none
  run_rxn _ _ := .ok ["B>>P"]

/-- The permissive filter configuration: threshold `0`, empty reject
lists, no neutralization. -/
def cfg0 : Config := ⟨0, [], [], false⟩

/-- A configuration whose byproduct reject list holds exactly the `Mol`
object that `Loaders.load_byproducts_to_remove` produces for the SMILES
`O` under `cA`. -/
def cfg4 : Config := ⟨0, [⟨5, 1, 18⟩], [], false⟩

/-- The one reaction rule of the concrete instance. -/
def rule1 : Rule := ⟨"R00001", "Any", "S1", "1.1.1.1"⟩

/-! ## Lemmas: first-occurrence duplicate removal -/

theorem dedup_first_nil {α : Type} [DecidableEq α] : dedup_first ([] : List α) = [] := by
  simp [dedup_first]

theorem dedup_first_cons {α : Type} [DecidableEq α] (a : α) (l : List α) :
    dedup_first (a :: l) = a :: dedup_first (l.filter (fun b => b ≠ a)) := by
  simp [dedup_first]

theorem mem_dedup_first_aux {α : Type} [DecidableEq α] (a : α) :
    ∀ (n : Nat) (l : List α), l.length ≤ n → (a ∈ dedup_first l ↔ a ∈ l) := by
  intro n
  induction n with
  | zero =>
    intro l hl
    have : l = [] := List.eq_nil_of_length_eq_zero (Nat.le_zero.mp hl)
    simp [this, dedup_first_nil]
  | succ n ih =>
    intro l hl
    match l with
    | [] => simp [dedup_first_nil]
    | b :: t =>
      rw [dedup_first_cons]
      have ht : (t.filter (fun x => x ≠ b)).length ≤ n :=
        le_trans (List.length_filter_le _ _) (Nat.le_of_succ_le_succ hl)
      simp only [List.mem_cons, ih _ ht, List.mem_filter, decide_eq_true_eq]
      by_cases hab : a = b <;> simp [hab]

theorem mem_dedup_first {α : Type} [DecidableEq α] (a : α) (l : List α) :
    a ∈ dedup_first l ↔ a ∈ l :=
  mem_dedup_first_aux a l.length l le_rfl

theorem dedup_first_filter_aux {α : Type} [DecidableEq α] (p : α → Bool) :
    ∀ (n : Nat) (l : List α), l.length ≤ n →
      dedup_first (l.filter p) = (dedup_first l).filter p := by
  intro n
  induction n with
  | zero =>
    intro l hl
    have : l = [] := List.eq_nil_of_length_eq_zero (Nat.le_zero.mp hl)
    simp [this, dedup_first_nil]
  | succ n ih =>
    intro l hl
    match l with
    | [] => simp [dedup_first_nil]
    | b :: t =>
      have ht : (t.filter (fun x => x ≠ b)).length ≤ n :=
        le_trans (List.length_filter_le _ _) (Nat.le_of_succ_le_succ hl)
      by_cases hb : p b
      · rw [show (b :: t).filter p = b :: t.filter p from by simp [hb],
            dedup_first_cons, dedup_first_cons,
            show (t.filter p).filter (fun x => x ≠ b)
                = (t.filter (fun x => x ≠ b)).filter p from by
              simp [List.filter_filter, Bool.and_comm],
            ih _ ht]
        simp [hb]
      · rw [show (b :: t).filter p = t.filter p from by simp [hb],
            dedup_first_cons]
        have hself : (t.filter p).filter (fun x => x ≠ b) = t.filter p := by
          apply List.filter_eq_self.mpr
          intro x hx
          have hpx : p x = true := (List.mem_filter.mp hx).2
          have : x ≠ b := by
            intro hxb
            rw [hxb] at hpx
            exact hb hpx
          simpa using this
        calc dedup_first (t.filter p)
            = dedup_first ((t.filter p).filter (fun x => x ≠ b)) := by rw [hself]
          _ = dedup_first ((t.filter (fun x => x ≠ b)).filter p) := by
              simp [List.filter_filter, Bool.and_comm]
          _ = (dedup_first (t.filter (fun x => x ≠ b))).filter p := ih _ ht
          _ = (b :: dedup_first (t.filter (fun x => x ≠ b))).filter p := by simp [hb]

theorem dedup_first_filter {α : Type} [DecidableEq α] (p : α → Bool) (l : List α) :
    dedup_first (l.filter p) = (dedup_first l).filter p :=
  dedup_first_filter_aux p l.length l le_rfl

theorem dedup_first_idem_aux {α : Type} [DecidableEq α] :
    ∀ (n : Nat) (l : List α), l.length ≤ n →
      dedup_first (dedup_first l) = dedup_first l := by
  intro n
  induction n with
  | zero =>
    intro l hl
    have : l = [] := List.eq_nil_of_length_eq_zero (Nat.le_zero.mp hl)
    simp [this, dedup_first_nil]
  | succ n ih =>
    intro l hl
    match l with
    | [] => simp [dedup_first_nil]
    | b :: t =>
      have ht : (t.filter (fun x => x ≠ b)).length ≤ n :=
        le_trans (List.length_filter_le _ _) (Nat.le_of_succ_le_succ hl)
      rw [dedup_first_cons, dedup_first_cons, ← dedup_first_filter,
          List.filter_filter]
      simp only [Bool.and_self]
      rw [ih _ ht]

theorem dedup_first_idem {α : Type} [DecidableEq α] (l : List α) :
    dedup_first (dedup_first l) = dedup_first l :=
  dedup_first_idem_aux l.length l le_rfl

theorem dedup_first_append_right_aux {α : Type} [DecidableEq α] :
    ∀ (n : Nat) (x y : List α), x.length ≤ n →
      dedup_first (x ++ dedup_first y) = dedup_first (x ++ y) := by
  intro n
  induction n with
  | zero =>
    intro x y hx
    have : x = [] := List.eq_nil_of_length_eq_zero (Nat.le_zero.mp hx)
    simp [this, dedup_first_idem]
  | succ n ih =>
    intro x y hx
    match x with
    | [] => simp [dedup_first_idem]
    | b :: t =>
      have ht : (t.filter (fun c => c ≠ b)).length ≤ n :=
        le_trans (List.length_filter_le _ _) (Nat.le_of_succ_le_succ hx)
      rw [List.cons_append, List.cons_append, dedup_first_cons, dedup_first_cons,
          List.filter_append, List.filter_append,
          ← dedup_first_filter, ih _ _ ht]

theorem dedup_first_append_right {α : Type} [DecidableEq α] (x y : List α) :
    dedup_first (x ++ dedup_first y) = dedup_first (x ++ y) :=
  dedup_first_append_right_aux x.length x y le_rfl

theorem dedup_first_append_left_aux {α : Type} [DecidableEq α] :
    ∀ (n : Nat) (x y : List α), x.length ≤ n →
      dedup_first (dedup_first x ++ y) = dedup_first (x ++ y) := by
  intro n
  induction n with
  | zero =>
    intro x y hx
    have : x = [] := List.eq_nil_of_length_eq_zero (Nat.le_zero.mp hx)
    simp [this, dedup_first_nil]
  | succ n ih =>
    intro x y hx
    match x with
    | [] => simp [dedup_first_nil]
    | b :: t =>
      have ht : (t.filter (fun c => c ≠ b)).length ≤ n :=
        le_trans (List.length_filter_le _ _) (Nat.le_of_succ_le_succ hx)
      rw [dedup_first_cons, List.cons_append, List.cons_append,
          dedup_first_cons, dedup_first_cons,
          List.filter_append, List.filter_append,
          ← dedup_first_filter, List.filter_filter]
      simp only [Bool.and_self]
      rw [ih _ _ ht]

theorem dedup_first_append_left {α : Type} [DecidableEq α] (x y : List α) :
    dedup_first (dedup_first x ++ y) = dedup_first (x ++ y) :=
  dedup_first_append_left_aux x.length x y le_rfl

theorem merge_join_assoc (x y z : List String) :
    merge_join (merge_join x y) z = merge_join x (merge_join y z) := by
  unfold merge_join
  rw [dedup_first_append_left, dedup_first_append_right, List.append_assoc]

theorem mem_clean_dedup (a : String) (l : List String) :
    a ∈ clean_dedup l ↔ a ∈ l ∧ a ≠ "" := by
  unfold clean_dedup
  rw [mem_dedup_first]
  simp [List.mem_filter]

/-! ## Claim C2: order-dependence of the reconciliation merge -/

/-- C2 counterexample: merging two provenance paths for the same
`(source_compound_id, product_structure)` key in the two arrival orders
yields different final Products — the semicolon-joined rule-id string
is `R1;R2` in one order and `R2;R1` in the other, so the merge is not
commutative as literal record equality. -/
theorem C2_counterexample :
    (process_group "c1" "S" [⟨"c1", "S0", "R1", "c1_0", "S", "B>>S", ["1.1.1.1"]⟩,
                             ⟨"c1", "S0", "R2", "c1_1", "S", "C>>S", ["1.1.1.2"]⟩]).rule_ids
        = some "R1;R2" ∧
    (process_group "c1" "S" [⟨"c1", "S0", "R2", "c1_1", "S", "C>>S", ["1.1.1.2"]⟩,
                             ⟨"c1", "S0", "R1", "c1_0", "S", "B>>S", ["1.1.1.1"]⟩]).rule_ids
        = some "R2;R1" ∧
    process_group "c1" "S" [⟨"c1", "S0", "R1", "c1_0", "S", "B>>S", ["1.1.1.1"]⟩,
                            ⟨"c1", "S0", "R2", "c1_1", "S", "C>>S", ["1.1.1.2"]⟩]
      ≠ process_group "c1" "S" [⟨"c1", "S0", "R2", "c1_1", "S", "C>>S", ["1.1.1.2"]⟩,
                                ⟨"c1", "S0", "R1", "c1_0", "S", "B>>S", ["1.1.1.1"]⟩] := by
  refine ⟨?_, ?_, ?_⟩ <;>
    simp [process_group, merge_fields, clean_dedup, dedup_first_cons, dedup_first_nil,
          str_intercalate, List.filter]

/-- C2 (amended): the reconciliation merge is associative, and
commutative only up to set equality of the merged provenance fields —
permuting the arrival order of the provenance rows of one
`(source_compound_id, product_structure)` group preserves membership in
the deduplicated rule-id, reaction-identity and classification-code
collections (but not the literal joined strings or the first-seen
fields). -/
theorem C2_merge_assoc_and_set_commutative :
    (∀ x y z : List String, merge_join (merge_join x y) z = merge_join x (merge_join y z)) ∧
    (∀ (rows rows' : List RawRow), rows.Perm rows' → ∀ a : String,
      (a ∈ clean_dedup (rows.map (fun r => r.rule_id))
          ↔ a ∈ clean_dedup (rows'.map (fun r => r.rule_id))) ∧
      (a ∈ clean_dedup (rows.map (fun r => r.reaction_smiles))
          ↔ a ∈ clean_dedup (rows'.map (fun r => r.reaction_smiles))) ∧
      (a ∈ clean_dedup ((rows.map (fun r => r.ecs)).flatten)
          ↔ a ∈ clean_dedup ((rows'.map (fun r => r.ecs)).flatten))) := by
  constructor
  · exact merge_join_assoc
  · intro rows rows' hperm a
    refine ⟨?_, ?_, ?_⟩ <;> rw [mem_clean_dedup, mem_clean_dedup]
    · rw [(hperm.map (fun r => r.rule_id)).mem_iff]
    · rw [(hperm.map (fun r => r.reaction_smiles)).mem_iff]
    · rw [((hperm.map (fun r => r.ecs)).flatten).mem_iff]

/-- C2 witness: the amended theorem applied to a concrete pair of
sets of provenance rows in swapped arrival order. -/
theorem C2_merge_witness :
    merge_join (merge_join ["R1"] ["R2"]) ["R3"]
        = merge_join ["R1"] (merge_join ["R2"] ["R3"]) ∧
    (("R1" ∈ clean_dedup
        ([(⟨"c1", "S0", "R1", "c1_0", "S", "B>>S", ["1.1.1.1"]⟩ : RawRow),
          ⟨"c1", "S0", "R2", "c1_1", "S", "C>>S", ["1.1.1.2"]⟩].map (fun r => r.rule_id)))
      ↔ ("R1" ∈ clean_dedup
        ([(⟨"c1", "S0", "R2", "c1_1", "S", "C>>S", ["1.1.1.2"]⟩ : RawRow),
          ⟨"c1", "S0", "R1", "c1_0", "S", "B>>S", ["1.1.1.1"]⟩].map (fun r => r.rule_id)))) :=
  ⟨C2_merge_assoc_and_set_commutative.1 ["R1"] ["R2"] ["R3"],
   (C2_merge_assoc_and_set_commutative.2
      [⟨"c1", "S0", "R1", "c1_0", "S", "B>>S", ["1.1.1.1"]⟩,
       ⟨"c1", "S0", "R2", "c1_1", "S", "C>>S", ["1.1.1.2"]⟩]
      [⟨"c1", "S0", "R2", "c1_1", "S", "C>>S", ["1.1.1.2"]⟩,
       ⟨"c1", "S0", "R1", "c1_0", "S", "B>>S", ["1.1.1.1"]⟩]
      (List.Perm.swap _ _ _) "R1").1⟩

/-! ## Claim C9: parenthesis normalization -/

/-- C9: for an output structure string with an odd total count of `(`
and `)` characters, the normalization removes exactly one stray
delimiter — the leading character when it is `(`, otherwise the
trailing character when it is `)` — and every string with an even
total delimiter count, or an odd one not matching those two shapes, is
returned unchanged. -/
theorem C9_parenthesis (p : String) :
    ((p.toList.count '(' + p.toList.count ')') % 2 = 1 →
       (p.toList.head? = some '(' →
          correct_parenthesis p = ⟨p.toList.tail⟩ ∧
          ((correct_parenthesis p).toList.count '(' + (correct_parenthesis p).toList.count ')')
            = (p.toList.count '(' + p.toList.count ')') - 1) ∧
       (p.toList.head? ≠ some '(' → p.toList.getLast? = some ')' →
          correct_parenthesis p = ⟨p.toList.dropLast⟩ ∧
          ((correct_parenthesis p).toList.count '(' + (correct_parenthesis p).toList.count ')')
            = (p.toList.count '(' + p.toList.count ')') - 1) ∧
       (p.toList.head? ≠ some '(' → p.toList.getLast? ≠ some ')' →
          correct_parenthesis p = p)) ∧
    ((p.toList.count '(' + p.toList.count ')') % 2 = 0 → correct_parenthesis p = p) ∧
    correct_number_of_parenthesis [p] = [correct_parenthesis p] := by
  refine ⟨?_, ?_, rfl⟩
  · intro hodd
    have hne : (p.toList.count '(' + p.toList.count ')') % 2 ≠ 0 := by omega
    refine ⟨?_, ?_, ?_⟩
    · intro hhead
      have heq : correct_parenthesis p = ⟨p.toList.tail⟩ := by
        unfold correct_parenthesis
        rw [if_pos hne, if_pos hhead]
      refine ⟨heq, ?_⟩
      rcases hpl : p.toList with _ | ⟨c, t⟩
      · rw [hpl] at hhead; simp at hhead
      · rw [hpl] at hhead
        have hc : c = '(' := by simpa using hhead
        rw [heq, hpl]
        simp [hc, List.count_cons]
    · intro hhead hlast
      have hnil : p.toList ≠ [] := by
        intro h
        rw [h] at hlast
        simp at hlast
      have heq : correct_parenthesis p = ⟨p.toList.dropLast⟩ := by
        unfold correct_parenthesis
        rw [if_pos hne, if_neg hhead, if_pos hlast]
      refine ⟨heq, ?_⟩
      have hgl : p.toList.getLast hnil = ')' := by
        have := List.getLast?_eq_getLast p.toList hnil
        rw [this] at hlast
        simpa using hlast
      have hsplit : p.toList.dropLast ++ [')'] = p.toList := by
        rw [← hgl]
        exact List.dropLast_append_getLast hnil
      rw [heq]
      conv_rhs => rw [← hsplit]
      simp [List.count_append]
    · intro hhead hlast
      unfold correct_parenthesis
      rw [if_pos hne, if_neg hhead, if_neg hlast]
  · intro heven
    unfold correct_parenthesis
    rw [if_neg (by omega : ¬(p.toList.count '(' + p.toList.count ')') % 2 ≠ 0)]

/-- C9 witness: the theorem applied to the concrete string `"(CO"`
(odd delimiter count, leading `(`), which normalizes to `"CO"`. -/
theorem C9_parenthesis_witness :
    ("(CO".toList.count '(' + "(CO".toList.count ')') % 2 = 1 ∧
    correct_parenthesis "(CO" = "CO" := by
  refine ⟨by decide, ?_⟩
  rw [((C9_parenthesis "(CO").1 (by decide)).1 (by decide) |>.1]
  decide

/-! ## Claim C6: the mass-tolerance predicate -/

/-- C6 (amended): for every product whose computed exact mass `M` is
defined and nonzero, the mass-match predicate of
`ChemUtils.match_masses` holds iff some reference mass lies within
`|M - m| ≤ tol`, boundary included.  (A computed mass of exactly `0`
is falsy in the Python guard `if mass:` and never matches — see the
counterexample.) -/
theorem C6_mass_match_iff (A : Adapter) (s : String) (masses : List ℚ) (tol M : ℚ)
    (hM : calc_exact_mass A s = some M) (hnz : M ≠ 0) :
    (match_masses A s (some masses) tol).1 = true ↔ ∃ m ∈ masses, |M - m| ≤ tol := by
  unfold match_masses
  rw [hM]
  simp only [hnz, ne_eq, not_false_eq_true, if_true, List.any_eq_true,
    Bool.and_eq_true, decide_eq_true_eq]
  constructor
  · rintro ⟨m, hm, h1, h2⟩
    refine ⟨m, hm, ?_⟩
    rw [abs_sub_le_iff]
    constructor <;> linarith
  · rintro ⟨m, hm, habs⟩
    rw [abs_sub_le_iff] at habs
    exact ⟨m, hm, by linarith [habs.1, habs.2], by linarith [habs.1, habs.2]⟩

/-- C6 witness: under the concrete adapter, the SMILES `B` has mass
`10`; with tolerance `1` the reference list `[11]` matches (boundary
case `|10 - 11| = 1 ≤ 1` inclusive). -/
theorem C6_mass_match_witness :
    calc_exact_mass cA "B" = some 10 ∧
    (match_masses cA "B" (some [11]) 1).1 = true := by
  refine ⟨by simp [calc_exact_mass, cA], ?_⟩
  rw [C6_mass_match_iff cA "B" [11] 1 10 (by simp [calc_exact_mass, cA]) (by norm_num)]
  exact ⟨11, by simp, by norm_num⟩

/-- C6 counterexample: a structure whose computed exact mass is `0`
(the mass RDKit assigns to the empty molecule) falls into the falsy
branch of `if mass:` — the reference mass `0` is within every
tolerance of it, yet the predicate is false, refuting the claim's
unrestricted "for every product mass M". -/
theorem C6_counterexample :
    calc_exact_mass cA "Z" = some 0 ∧
    (match_masses cA "Z" (some [0]) 1).1 = false ∧
    |(0 : ℚ) - 0| ≤ 1 := by
  refine ⟨by simp [calc_exact_mass, cA], ?_, by norm_num⟩
  simp [match_masses, calc_exact_mass, cA]

/-! ## Claim C5: failed reactant resolution yields the empty list -/

/-- C5: whenever a resolved reactant set contains an unparseable
structure, or the rule pattern is invalid, `ChemUtils.react` returns
the empty list (and, being a total function, never raises); the same
holds for the full `BioReactor._react_single` pair processing. -/
theorem C5_invalid_resolution_empty :
    (∀ (A : Adapter) (rs : List String) (smarts : String),
        ((∃ s ∈ rs, A.parse s = none) ∨ A.parse_rxn smarts = none) →
        react A rs smarts = some []) ∧
    (∀ (A : Adapter) (cfg : Config) (rule : Rule) (cid smiles : String),
        ((∃ s ∈ str_split (str_replace rule.reactants "Any" smiles) ';', A.parse s = none) ∨
         A.parse_rxn rule.smarts = none) →
        react_single A cfg rule cid smiles = some []) := by
  have hreact : ∀ (A : Adapter) (rs : List String) (smarts : String),
      ((∃ s ∈ rs, A.parse s = none) ∨ A.parse_rxn smarts = none) →
      react A rs smarts = some [] := by
    intro A rs smarts h
    unfold react
    rw [if_pos]
    rcases h with ⟨s, hs, hp⟩ | hrxn
    · exact Or.inl (List.mem_map.mpr ⟨s, hs, hp⟩)
    · exact Or.inr hrxn
  refine ⟨hreact, ?_⟩
  intro A cfg rule cid smiles h
  show (match react A (str_split (str_replace rule.reactants "Any" smiles) ';') rule.smarts with
        | none => none
        | some results => some (react_loop A cfg rule cid smiles results [] [])) = some []
  rw [hreact _ _ _ h]
  rfl

/-- C5 witness: the concrete adapter cannot parse `bad`, so the rule
with reactant template `Any` applied to the compound `bad` yields the
empty outcome list. -/
theorem C5_invalid_resolution_witness :
    cA.parse "bad" = none ∧
    react cA ["bad"] "S1" = some [] ∧
    react_single cA cfg0 rule1 "c1" "bad" = some [] := by
  refine ⟨by decide, ?_, ?_⟩
  · exact C5_invalid_resolution_empty.1 cA ["bad"] "S1" (Or.inl ⟨"bad", by simp, by decide⟩)
  · exact C5_invalid_resolution_empty.2 cA cfg0 rule1 "c1" "bad"
      (Or.inl ⟨"bad", by decide, by decide⟩)

/-! ## Claim C4: the byproduct identity stage -/

/-- C4: the byproduct stage of the filter pipeline never rejects any
structure: `Loaders.load_byproducts_to_remove` fills the reject list
with RDKit `Mol` objects while `_match_byproducts` asks whether a
SMILES *string* is `in` that list, and a string never equals a `Mol`.
Concretely, with a non-empty reject list loaded from the SMILES `O`
and the candidate canonical SMILES `O`, the pipeline accepts the
candidate that the spec requires it to reject. -/
theorem C4_byproduct_stage_noop :
    (∀ (cfg : Config) (s : String), match_byproducts cfg s = false) ∧
    cA.parse "O" = some ⟨5, 1, 18⟩ ∧
    cfg4.molecules_to_remove = [⟨5, 1, 18⟩] ∧
    cfg4.molecules_to_remove ≠ [] ∧
    match_conditions cA cfg4 (some "O") = true := by
  refine ⟨?_, by decide, by decide, by decide, by decide⟩
  intro cfg s
  unfold match_byproducts
  by_cases h : cfg.molecules_to_remove.length = 0
  · simp [h]
  · simp [h, py_eq]

/-! ## Lemmas: Python `max` and first-index lookup -/

theorem foldl_max_le_init (l : List ℚ) : ∀ a : ℚ, a ≤ l.foldl max a := by
  induction l with
  | nil => intro a; exact le_refl a
  | cons b t ih =>
    intro a
    exact le_trans (le_max_left a b) (ih (max a b))

theorem le_foldl_max (l : List ℚ) : ∀ (a x : ℚ), x ∈ l → x ≤ l.foldl max a := by
  induction l with
  | nil => intro a x hx; simp at hx
  | cons b t ih =>
    intro a x hx
    rcases List.mem_cons.mp hx with hb | ht
    · rw [hb]
      exact le_trans (le_max_right a b) (foldl_max_le_init t (max a b))
    · exact ih (max a b) x ht

theorem foldl_max_mem (l : List ℚ) : ∀ a : ℚ, l.foldl max a = a ∨ l.foldl max a ∈ l := by
  induction l with
  | nil => intro a; exact Or.inl rfl
  | cons b t ih =>
    intro a
    rcases ih (max a b) with heq | hmem
    · rcases max_choice a b with h | h
      · left
        rw [List.foldl_cons, heq, h]
      · right
        rw [List.foldl_cons, heq, h]
        exact List.mem_cons_self b t
    · right
      rw [List.foldl_cons]
      exact List.mem_cons_of_mem b hmem

theorem list_max_mem (l : List ℚ) (h : l ≠ []) : list_max l ∈ l := by
  match l with
  | [] => exact absurd rfl h
  | a :: t =>
    show t.foldl max a ∈ a :: t
    rcases foldl_max_mem t a with heq | hmem
    · rw [heq]; exact List.mem_cons_self a t
    · exact List.mem_cons_of_mem a hmem

theorem le_list_max (l : List ℚ) (x : ℚ) (hx : x ∈ l) : x ≤ list_max l := by
  match l with
  | [] => simp at hx
  | a :: t =>
    show x ≤ t.foldl max a
    rcases List.mem_cons.mp hx with ha | ht
    · rw [ha]; exact foldl_max_le_init t a
    · exact le_foldl_max t a x ht

theorem index_of_q_lt (v : ℚ) (l : List ℚ) (h : v ∈ l) : index_of_q v l < l.length := by
  induction l with
  | nil => simp at h
  | cons a t ih =>
    by_cases ha : a = v
    · simp [index_of_q, ha]
    · have hv : v ∈ t := by
        rcases List.mem_cons.mp h with h1 | h1
        · exact absurd h1.symm ha
        · exact h1
      simp only [index_of_q, ha, if_false, List.length_cons]
      exact Nat.succ_lt_succ (ih hv)

theorem getD_index_of_q (v : ℚ) (l : List ℚ) (h : v ∈ l) :
    l.getD (index_of_q v l) 0 = v := by
  induction l with
  | nil => simp at h
  | cons a t ih =>
    by_cases ha : a = v
    · simp [index_of_q, ha]
    · have hv : v ∈ t := by
        rcases List.mem_cons.mp h with h1 | h1
        · exact absurd h1.symm ha
        · exact h1
      simp only [index_of_q, ha, if_false]
      simpa using ih hv

theorem index_of_q_min (v : ℚ) (l : List ℚ) :
    ∀ j < index_of_q v l, l.getD j 0 ≠ v := by
  induction l with
  | nil => intro j hj; simp [index_of_q] at hj
  | cons a t ih =>
    intro j hj
    by_cases ha : a = v
    · simp [index_of_q, ha] at hj
    · simp only [index_of_q, ha, if_false] at hj
      match j with
      | 0 => simpa using ha
      | j' + 1 =>
        have : j' < index_of_q v t := Nat.lt_of_succ_lt_succ hj
        simpa using ih j' this

/-! ## Claim C7: representative selection -/

/-- C7 (amended): representative selection first normalizes the
parentheses of every candidate; it returns the sole *normalized*
candidate when the list has one element, and otherwise the normalized
candidate of maximal fingerprint similarity to the source compound,
exact ties broken in favour of the earliest-occurring candidate. -/
theorem C7_representative_selection (A : Adapter) (smiles : String)
    (smiles_list : List String) (hne : smiles_list ≠ []) :
    (smiles_list.length = 1 →
       most_similar_compound A smiles smiles_list
         = (correct_number_of_parenthesis smiles_list).getD 0 "") ∧
    (smiles_list.length ≠ 1 →
       ∃ i, ∃ hi : i < (correct_number_of_parenthesis smiles_list).length,
         most_similar_compound A smiles smiles_list
             = (correct_number_of_parenthesis smiles_list).get ⟨i, hi⟩ ∧
         (((correct_number_of_parenthesis smiles_list).map
             (calc_fingerprint_similarity A smiles)).getD i 0
           = list_max ((correct_number_of_parenthesis smiles_list).map
               (calc_fingerprint_similarity A smiles))) ∧
         (∀ x ∈ (correct_number_of_parenthesis smiles_list).map
             (calc_fingerprint_similarity A smiles),
            x ≤ ((correct_number_of_parenthesis smiles_list).map
               (calc_fingerprint_similarity A smiles)).getD i 0) ∧
         (∀ j < i, ((correct_number_of_parenthesis smiles_list).map
               (calc_fingerprint_similarity A smiles)).getD j 0
             < ((correct_number_of_parenthesis smiles_list).map
               (calc_fingerprint_similarity A smiles)).getD i 0)) := by
  have hlen : (correct_number_of_parenthesis smiles_list).length = smiles_list.length :=
    List.length_map _ _
  constructor
  · intro h1
    unfold most_similar_compound
    rw [if_pos (by rw [hlen]; exact h1)]
  · intro h1
    have hlne : correct_number_of_parenthesis smiles_list ≠ [] := by
      intro h
      exact hne (List.eq_nil_of_length_eq_zero (by rw [← hlen, h]; rfl))
    set l' := correct_number_of_parenthesis smiles_list with hl'
    set sims := l'.map (calc_fingerprint_similarity A smiles) with hsims
    have hsne : sims ≠ [] := by
      intro h
      exact hlne (List.eq_nil_of_length_eq_zero (by
        rw [← List.length_map l' (calc_fingerprint_similarity A smiles), ← hsims, h]; rfl))
    have hmem : list_max sims ∈ sims := list_max_mem sims hsne
    have hilt : index_of_q (list_max sims) sims < sims.length := index_of_q_lt _ _ hmem
    have hslen : sims.length = l'.length := List.length_map _ _
    refine ⟨index_of_q (list_max sims) sims, by rw [← hslen]; exact hilt, ?_, ?_, ?_, ?_⟩
    · unfold most_similar_compound
      rw [if_neg (by rw [hlen]; exact h1)]
      rw [← hl', ← hsims]
      exact List.getD_eq_getElem l' "" (by rw [← hslen]; exact hilt)
    · exact getD_index_of_q _ _ hmem
    · intro x hx
      rw [getD_index_of_q _ _ hmem]
      exact le_list_max sims x hx
    · intro j hj
      rw [getD_index_of_q _ _ hmem]
      have hjlt : j < sims.length := lt_trans hj hilt
      have hmemj : sims.getD j 0 ∈ sims := by
        rw [List.getD_eq_getElem sims 0 hjlt]
        exact List.getElem_mem hjlt
      exact lt_of_le_of_ne (le_list_max sims _ hmemj) (index_of_q_min _ _ j hj)

/-- C7 counterexample: with a single candidate whose parenthesis count
is odd, the selection returns the *normalized* string `CO`, not the
sole element `CO)` of the input list — refuting the claim that the
sole element is returned as-is. -/
theorem C7_counterexample :
    most_similar_compound cA "C" ["CO)"] = "CO" ∧
    "CO" ∉ (["CO)"] : List String) := by
  constructor
  · decide
  · decide

/-- C7 witness: the amended theorem applied to a concrete singleton
list (hypotheses discharged by evaluation). -/
theorem C7_representative_witness : most_similar_compound cA "B" ["B"] = "B" := by
  rw [(C7_representative_selection cA "B" ["B"] (by decide)).1 (by decide)]
  decide

/-! ## Claim C8: neutralization is applied only after filtering -/

/-- The post-filter neutralization of one output row: `uncharge_smiles`
applied to the product structure, every other field untouched. -/
def neutralize_row (A : Adapter) (r : Row) : Row :=
  { r with product_smiles := uncharge_smiles A r.product_smiles }

theorem react_loop_neutralize (A : Adapter) (n : Nat) (ms : List Mol) (ps : List SPattern)
    (rule : Rule) (cid smiles : String) :
    ∀ (results : List String) (seen : List (Option String)) (acc : List Row),
      react_loop A ⟨n, ms, ps, true⟩ rule cid smiles results seen
          (acc.map (neutralize_row A))
        = (react_loop A ⟨n, ms, ps, false⟩ rule cid smiles results seen acc).map
            (neutralize_row A) := by
  intro results
  induction results with
  | nil => intro seen acc; rfl
  | cons result rest ih =>
    intro seen acc
    simp only [react_loop]
    by_cases hseen :
        smiles_to_isomerical_smiles A (most_similar_compound A smiles
          (str_split ((str_split result '>').getLastD "") '.')) ∈ seen
    · rw [if_pos hseen, if_pos hseen]
      exact ih seen acc
    · rw [if_neg hseen, if_neg hseen]
      by_cases hmc : match_conditions A ⟨n, ms, ps, false⟩
          (smiles_to_isomerical_smiles A (most_similar_compound A smiles
            (str_split ((str_split result '>').getLastD "") '.'))) = true
      · rw [if_pos hmc, if_pos (show match_conditions A ⟨n, ms, ps, true⟩
            (smiles_to_isomerical_smiles A (most_similar_compound A smiles
              (str_split ((str_split result '>').getLastD "") '.'))) = true from hmc)]
        simp only [ite_true, Bool.false_eq_true, ite_false, List.length_map]
        rw [← ih _ _, List.map_append]
        rfl
      · rw [if_neg hmc, if_neg (show ¬ match_conditions A ⟨n, ms, ps, true⟩
            (smiles_to_isomerical_smiles A (most_similar_compound A smiles
              (str_split ((str_split result '>').getLastD "") '.'))) = true from hmc)]
        exact ih _ _

/-- C8: the filter decision is computed on the as-generated
(pre-neutralization) structure and does not depend on the neutralize
flag; running `_react_single` with neutralization enabled produces
exactly the rows of the disabled run with `uncharge_smiles` applied to
the already-accepted product structures — so neutralization can
neither rescue a rejected candidate nor invalidate an accepted one. -/
theorem C8_filter_independent_of_neutralization (A : Adapter) (cfg : Config) (rule : Rule)
    (cid smiles : String) :
    (∀ (b : Bool) (s : Option String),
        match_conditions A { cfg with neutralize := b } s = match_conditions A cfg s) ∧
    react_single A { cfg with neutralize := true } rule cid smiles
      = (react_single A { cfg with neutralize := false } rule cid smiles).map
          (List.map (neutralize_row A)) := by
  obtain ⟨n, ms, ps, b0⟩ := cfg
  refine ⟨fun b s => rfl, ?_⟩
  show (match react A (str_split (str_replace rule.reactants "Any" smiles) ';') rule.smarts with
        | none => none
        | some results => some (react_loop A ⟨n, ms, ps, true⟩ rule cid smiles results [] []))
      = (match react A (str_split (str_replace rule.reactants "Any" smiles) ';') rule.smarts with
        | none => none
        | some results =>
            some (react_loop A ⟨n, ms, ps, false⟩ rule cid smiles results [] [])).map
          (List.map (neutralize_row A))
  cases react A (str_split (str_replace rule.reactants "Any" smiles) ';') rule.smarts with
  | none => rfl
  | some results =>
    have h := react_loop_neutralize A n ms ps rule cid smiles results [] []
    simp only [List.map_nil] at h
    simp [h]

/-! ## Lemmas: the generation-loop invariant -/

theorem match_conditions_none (A : Adapter) (cfg : Config) :
    match_conditions A cfg none = false := rfl

theorem match_conditions_some (A : Adapter) (cfg : Config) (s : String) :
    match_conditions A cfg (some s)
      = (if s = "" then false
         else if str_contains s '*' then false
         else if cfg.min_atom_count > 0 && !min_atom_count_filter A cfg s then false
         else if cfg.molecules_to_remove.length > 0 && match_byproducts cfg s then false
         else if cfg.patterns_to_remove.length > 0 && match_patterns A cfg s then false
         else true) := rfl

/-- Every row the loop appends satisfies any property `P` that holds of
the row built from an accepted (filter-passing) representative; rows
already in the accumulator are preserved. -/
theorem react_loop_invariant (A : Adapter) (cfg : Config) (rule : Rule) (cid smiles : String)
    (P : Row → Prop)
    (hP : ∀ (result : String) (k : Nat),
        match_conditions A cfg (smiles_to_isomerical_smiles A (most_similar_compound A smiles
          (str_split ((str_split result '>').getLastD "") '.'))) = true →
        P ⟨cid, smiles, rule.internal_id, cid ++ "_" ++ toString k,
           (if cfg.neutralize = true
            then uncharge_smiles A ((smiles_to_isomerical_smiles A
              (most_similar_compound A smiles
                (str_split ((str_split result '>').getLastD "") '.'))).getD "")
            else (smiles_to_isomerical_smiles A (most_similar_compound A smiles
              (str_split ((str_split result '>').getLastD "") '.'))).getD ""),
           result, rule.ec_numbers⟩) :
    ∀ (results : List String) (seen : List (Option String)) (acc : List Row),
      (∀ r ∈ acc, P r) →
      ∀ r ∈ react_loop A cfg rule cid smiles results seen acc, P r := by
  intro results
  induction results with
  | nil =>
    intro seen acc hacc r hr
    exact hacc r hr
  | cons result rest ih =>
    intro seen acc hacc r hr
    simp only [react_loop] at hr
    by_cases hseen :
        smiles_to_isomerical_smiles A (most_similar_compound A smiles
          (str_split ((str_split result '>').getLastD "") '.')) ∈ seen
    · rw [if_pos hseen] at hr
      exact ih _ _ hacc r hr
    · rw [if_neg hseen] at hr
      by_cases hmc : match_conditions A cfg
          (smiles_to_isomerical_smiles A (most_similar_compound A smiles
            (str_split ((str_split result '>').getLastD "") '.'))) = true
      · rw [if_pos hmc] at hr
        refine ih _ _ ?_ r hr
        intro r' hr'
        rcases List.mem_append.mp hr' with h1 | h1
        · exact hacc r' h1
        · have : r' = _ := List.mem_singleton.mp h1
          rw [this]
          exact hP result acc.length hmc
      · rw [if_neg hmc] at hr
        exact ih _ _ hacc r hr

theorem match_conditions_no_wildcard (A : Adapter) (cfg : Config) (s : String)
    (h : match_conditions A cfg (some s) = true) : str_contains s '*' = false := by
  by_cases hs : s = ""
  · subst hs; decide
  · by_contra hc
    have hc' : str_contains s '*' = true := by
      cases hcc : str_contains s '*'
      · exact absurd hcc hc
      · rfl
    rw [match_conditions_some, if_neg hs, if_pos hc'] at h
    exact absurd h (by simp)

/-! ## Claim C3: every Product structure is re-parseable -/

/-- C3: under every filter configuration, an unparseable representative
is discarded before the filter even runs (its canonicalization is
`None`, which the pipeline rejects), and — provided the adapter
re-parses its own canonical serializations, the contract the spec
assigns to `canonicalize` — every row `_react_single` writes carries a
product structure the adapter can parse. -/
theorem C3_products_reparseable :
    (∀ (A : Adapter) (cfg : Config) (x : String),
        A.parse x = none →
        match_conditions A cfg (smiles_to_isomerical_smiles A x) = false) ∧
    (∀ (A : Adapter) (cfg : Config) (rule : Rule) (cid smiles : String) (rows : List Row),
        (∀ m : Mol, (A.parse (A.to_smiles m)).isSome = true) →
        react_single A cfg rule cid smiles = some rows →
        ∀ r ∈ rows, (A.parse r.product_smiles).isSome = true) := by
  constructor
  · intro A cfg x hx
    unfold smiles_to_isomerical_smiles
    rw [hx]
    rfl
  · intro A cfg rule cid smiles rows hA hrs r hr
    rcases hre : react A (str_split (str_replace rule.reactants "Any" smiles) ';') rule.smarts
      with _ | results
    · simp only [react_single, hre] at hrs
      exact Option.noConfusion hrs
    · simp only [react_single, hre] at hrs
      have hrows : rows = react_loop A cfg rule cid smiles results [] [] :=
        (Option.some.inj hrs).symm
      rw [hrows] at hr
      refine react_loop_invariant A cfg rule cid smiles
        (fun r => (A.parse r.product_smiles).isSome = true) ?_ results [] []
        (by intro r' hr'; simp at hr') r hr
      intro result k hmc
      rcases hmsp : smiles_to_isomerical_smiles A (most_similar_compound A smiles
          (str_split ((str_split result '>').getLastD "") '.')) with _ | str
      · rw [hmsp] at hmc
        exact absurd hmc (by simp [match_conditions_none])
      · rw [hmsp] at hmc
        have hstr : ∃ m, A.parse (most_similar_compound A smiles
            (str_split ((str_split result '>').getLastD "") '.')) = some m
            ∧ A.to_smiles m = str := by
          unfold smiles_to_isomerical_smiles at hmsp
          rcases hp : A.parse (most_similar_compound A smiles
              (str_split ((str_split result '>').getLastD "") '.')) with _ | m
          · rw [hp] at hmsp; simp at hmsp
          · rw [hp] at hmsp
            exact ⟨m, rfl, by simpa using hmsp⟩
        rcases hstr with ⟨m, _, hts⟩
        simp only [Option.getD_some]
        by_cases hneu : cfg.neutralize = true
        · rw [if_pos hneu]
          unfold uncharge_smiles
          rcases hp2 : A.parse str with _ | m2
          · rw [← hts] at hp2
            have := hA m
            rw [hp2] at this
            simp at this
          · exact hA (A.uncharge_mol m2)
        · rw [if_neg hneu, ← hts]
          exact hA m

/-- C3 witness: the unparseable candidate `bad` is rejected by the
pipeline, and the concrete run writes the single product `M`, which
the adapter parses. -/
theorem C3_products_reparseable_witness :
    match_conditions cA cfg0 (smiles_to_isomerical_smiles cA "bad") = false ∧
    react_single cA cfg0 rule1 "c1" "B"
      = some [⟨"c1", "B", "R00001", "c1_0", "M", "B>>P", "1.1.1.1"⟩] ∧
    (cA.parse "M").isSome = true := by
  refine ⟨C3_products_reparseable.1 cA cfg0 "bad" (by decide), by decide, ?_⟩
  exact C3_products_reparseable.2 cA cfg0 rule1 "c1" "B"
    [⟨"c1", "B", "R00001", "c1_0", "M", "B>>P", "1.1.1.1"⟩]
    (fun m => rfl) (by decide)
    ⟨"c1", "B", "R00001", "c1_0", "M", "B>>P", "1.1.1.1"⟩ (by decide)

/-! ## Claim C10: wildcard-bearing structures never reach the output -/

/-- C10: under every filter configuration — including threshold `0` and
empty reject lists — a candidate representative whose SMILES contains
the wildcard `*` is rejected by `_match_conditions`; consequently
(given that neutralization does not introduce a wildcard into a
wildcard-free structure) no row written by `_react_single` carries a
product SMILES containing `*`. -/
theorem C10_wildcard_rejected :
    (∀ (A : Adapter) (cfg : Config) (s : String),
        str_contains s '*' = true → match_conditions A cfg (some s) = false) ∧
    (∀ (A : Adapter) (cfg : Config) (rule : Rule) (cid smiles : String) (rows : List Row),
        (∀ t : String, str_contains t '*' = false →
            str_contains (uncharge_smiles A t) '*' = false) →
        react_single A cfg rule cid smiles = some rows →
        ∀ r ∈ rows, str_contains r.product_smiles '*' = false) := by
  constructor
  · intro A cfg s h
    by_cases hs : s = ""
    · rw [hs] at h
      exact absurd h (by decide)
    · rw [match_conditions_some, if_neg hs, if_pos h]
  · intro A cfg rule cid smiles rows hunch hrs r hr
    rcases hre : react A (str_split (str_replace rule.reactants "Any" smiles) ';') rule.smarts
      with _ | results
    · simp only [react_single, hre] at hrs
      exact Option.noConfusion hrs
    · simp only [react_single, hre] at hrs
      have hrows : rows = react_loop A cfg rule cid smiles results [] [] :=
        (Option.some.inj hrs).symm
      rw [hrows] at hr
      refine react_loop_invariant A cfg rule cid smiles
        (fun r => str_contains r.product_smiles '*' = false) ?_ results [] []
        (by intro r' hr'; simp at hr') r hr
      intro result k hmc
      rcases hmsp : smiles_to_isomerical_smiles A (most_similar_compound A smiles
          (str_split ((str_split result '>').getLastD "") '.')) with _ | str
      · rw [hmsp] at hmc
        exact absurd hmc (by simp [match_conditions_none])
      · rw [hmsp] at hmc
        have hnw : str_contains str '*' = false :=
          match_conditions_no_wildcard A cfg str hmc
        simp only [Option.getD_some]
        by_cases hneu : cfg.neutralize = true
        · rw [if_pos hneu]
          exact hunch str hnw
        · rw [if_neg hneu]
          exact hnw

/-! ## Lemmas: the first-index-within-tolerance scan -/

theorem first_within_some (v tol : ℚ) :
    ∀ (l : List ℚ) (i : Nat), first_within v tol l = some i →
      i < l.length ∧ |v - l.getD i 0| ≤ tol ∧ ∀ j < i, ¬(|v - l.getD j 0| ≤ tol) := by
  intro l
  induction l with
  | nil => intro i h; simp [first_within] at h
  | cons m rest ih =>
    intro i h
    by_cases hm : |v - m| ≤ tol
    · rw [first_within, if_pos hm] at h
      have hi : i = 0 := (Option.some.inj h).symm
      subst hi
      exact ⟨Nat.succ_pos _, by simpa using hm, by intro j hj; omega⟩
    · rw [first_within, if_neg hm] at h
      obtain ⟨i', hfw, hi⟩ := Option.map_eq_some'.mp h
      obtain ⟨hlt, habs, hmin⟩ := ih i' hfw
      subst hi
      refine ⟨Nat.succ_lt_succ hlt, by simpa using habs, ?_⟩
      intro j hj
      match j with
      | 0 => simpa using hm
      | j' + 1 =>
        have := hmin j' (Nat.lt_of_succ_lt_succ hj)
        simpa using this

theorem first_within_complete (v tol : ℚ) :
    ∀ (l : List ℚ) (i : Nat), i < l.length → |v - l.getD i 0| ≤ tol →
      (∀ j < i, ¬(|v - l.getD j 0| ≤ tol)) → first_within v tol l = some i := by
  intro l
  induction l with
  | nil => intro i h; simp at h
  | cons m rest ih =>
    intro i hlen habs hmin
    by_cases hm : |v - m| ≤ tol
    · match i with
      | 0 => rw [first_within, if_pos hm]
      | i' + 1 => exact absurd hm (by simpa using hmin 0 (Nat.succ_pos i'))
    · match i with
      | 0 => exact absurd (by simpa using habs) hm
      | i' + 1 =>
        rw [first_within, if_neg hm,
            ih i' (Nat.lt_of_succ_lt_succ hlen) (by simpa using habs)
              (fun j hj => by simpa using hmin (j + 1) (Nat.succ_lt_succ hj))]
        rfl

/-! ## Claim C1: at most one MatchRecord per product -/

/-- C1 (amended): for every retained product row the matcher consults
only the *first* reference row within tolerance: it emits one
MatchRecord for that row iff that row's declared parent compound
agrees with the product's source compound, and later in-tolerance
reference rows are ignored — so each product contributes at most one
MatchRecord (a single reference row may still appear in the matches of
several products, since products are scanned independently). -/
theorem C1_matcher_one_match_per_product (A : Adapter) (ms_data : List MSRow)
    (rows : List CompRow) (tol : ℚ) :
    (matcher_match_masses A ms_data rows tol).length ≤ rows.length ∧
    (∀ r ∈ matcher_match_masses A ms_data rows tol,
      ∃ row ∈ rows, ∃ i, ∃ hi : i < ms_data.length,
        |row.exact_mass - (ms_data.get ⟨i, hi⟩).ref_value| ≤ tol ∧
        (∀ j < i,
           ¬(|row.exact_mass - (ms_data.map (fun x => x.ref_value)).getD j 0| ≤ tol)) ∧
        (ms_data.get ⟨i, hi⟩).parent_compound = parent_of row.new_id ∧
        r = match_record_row A (ms_data.get ⟨i, hi⟩) row) ∧
    (∀ row ∈ rows, ∀ i, ∀ hi : i < ms_data.length,
        |row.exact_mass - (ms_data.get ⟨i, hi⟩).ref_value| ≤ tol →
        (∀ j < i,
           ¬(|row.exact_mass - (ms_data.map (fun x => x.ref_value)).getD j 0| ≤ tol)) →
        (ms_data.get ⟨i, hi⟩).parent_compound = parent_of row.new_id →
        match_record_row A (ms_data.get ⟨i, hi⟩) row
          ∈ matcher_match_masses A ms_data rows tol) := by
  have hgetD : ∀ (i : Nat) (hi : i < ms_data.length),
      (ms_data.map (fun x => x.ref_value)).getD i 0 = (ms_data.get ⟨i, hi⟩).ref_value := by
    intro i hi
    rw [List.getD_eq_getElem _ _ (by simpa using hi), List.getElem_map]
    rfl
  refine ⟨List.length_filterMap_le _ _, ?_, ?_⟩
  · intro r hr
    obtain ⟨row, hrow, hone⟩ := List.mem_filterMap.mp hr
    refine ⟨row, hrow, ?_⟩
    unfold match_one_compound at hone
    rcases hfw : first_within row.exact_mass tol (ms_data.map (fun x => x.ref_value))
      with _ | i
    · have hmv : match_value row.exact_mass (ms_data.map (fun x => x.ref_value)) tol
          = (false, none) := by
        unfold match_value
        rw [hfw]
      simp only [hmv] at hone
      exact Option.noConfusion hone
    · have hmv : match_value row.exact_mass (ms_data.map (fun x => x.ref_value)) tol
          = (true, some i) := by
        unfold match_value
        rw [hfw]
      obtain ⟨hlt, habs, hmin⟩ := first_within_some _ _ _ _ hfw
      have hi : i < ms_data.length := by simpa using hlt
      have hget : ms_data.get? i = some (ms_data.get ⟨i, hi⟩) := List.get?_eq_get hi
      simp only [hmv, hget] at hone
      by_cases hpar : (ms_data.get ⟨i, hi⟩).parent_compound = parent_of row.new_id
      · rw [if_pos hpar] at hone
        refine ⟨i, hi, ?_, ?_, hpar, (Option.some.inj hone).symm⟩
        · rw [← hgetD i hi]
          exact habs
        · exact hmin
      · rw [if_neg hpar] at hone
        exact Option.noConfusion hone
  · intro row hrow i hi habs hmin hpar
    refine List.mem_filterMap.mpr ⟨row, hrow, ?_⟩
    unfold match_one_compound
    have hfw : first_within row.exact_mass tol (ms_data.map (fun x => x.ref_value)) = some i :=
      first_within_complete _ _ _ i (by simpa using hi) (by rw [hgetD i hi]; exact habs) hmin
    have hmv : match_value row.exact_mass (ms_data.map (fun x => x.ref_value)) tol
        = (true, some i) := by
      unfold match_value
      rw [hfw]
    simp only [hmv, List.get?_eq_get hi]
    rw [if_pos hpar]

/-- C1 counterexample: one product of mass `10` against a reference
table whose two rows (masses `10` and `11`, same parent) are both
within tolerance `5`; the matcher emits a single MatchRecord — the
record for the second in-tolerance reference row is absent, refuting
"all reference rows within tolerance of the same product appear in the
output". -/
theorem C1_counterexample :
    (matcher_match_masses cA [⟨"c", "P", 10⟩, ⟨"c", "P", 11⟩]
        [⟨"c_1", "S", 10, "1.1.1.1"⟩] 5).length = 1 ∧
    |(10 : ℚ) - 10| ≤ 5 ∧ |(10 : ℚ) - 11| ≤ 5 ∧
    match_record_row cA ⟨"c", "P", 11⟩ ⟨"c_1", "S", 10, "1.1.1.1"⟩
      ∉ matcher_match_masses cA [⟨"c", "P", 10⟩, ⟨"c", "P", 11⟩]
          [⟨"c_1", "S", 10, "1.1.1.1"⟩] 5 := by
  have hfw : first_within (10 : ℚ) 5 [10, 11] = some 0 := by
    rw [first_within, if_pos (by norm_num)]
  have hone : match_one_compound cA [⟨"c", "P", 10⟩, ⟨"c", "P", 11⟩] 5
      ⟨"c_1", "S", 10, "1.1.1.1"⟩
      = some (match_record_row cA ⟨"c", "P", 10⟩ ⟨"c_1", "S", 10, "1.1.1.1"⟩) := by
    have hmv : match_value (10 : ℚ) [(10 : ℚ), 11] 5 = (true, some 0) := by
      unfold match_value
      rw [hfw]
    unfold match_one_compound
    simp only [List.map_cons, List.map_nil]
    simp only [hmv]
    simp only [show (([⟨"c", "P", 10⟩, ⟨"c", "P", 11⟩] : List MSRow).get? 0)
          = some ⟨"c", "P", 10⟩ from rfl]
    rw [if_pos (by decide)]
  have hout : matcher_match_masses cA [⟨"c", "P", 10⟩, ⟨"c", "P", 11⟩]
      [⟨"c_1", "S", 10, "1.1.1.1"⟩] 5
      = [match_record_row cA ⟨"c", "P", 10⟩ ⟨"c_1", "S", 10, "1.1.1.1"⟩] := by
    unfold matcher_match_masses
    rw [List.filterMap_cons, hone]
    rfl
  refine ⟨by rw [hout]; rfl, by norm_num, by norm_num, ?_⟩
  rw [hout]
  intro hmem
  have heq := List.mem_singleton.mp hmem
  have : (11 : ℚ) = 10 := congrArg (fun r => r.ms_value) heq
  norm_num at this

/-- C1 witness: the amended theorem applied to the concrete data of
the counterexample — the first in-tolerance reference row with
agreeing parent produces a record, and the output has at most one
record for the single product. -/
theorem C1_matcher_witness :
    match_record_row cA ⟨"c", "P", 10⟩ ⟨"c_1", "S", 10, "1.1.1.1"⟩
      ∈ matcher_match_masses cA [⟨"c", "P", 10⟩, ⟨"c", "P", 11⟩]
          [⟨"c_1", "S", 10, "1.1.1.1"⟩] 5 ∧
    (matcher_match_masses cA [⟨"c", "P", 10⟩, ⟨"c", "P", 11⟩]
        [⟨"c_1", "S", 10, "1.1.1.1"⟩] 5).length ≤ 1 := by
  constructor
  · have h := (C1_matcher_one_match_per_product cA [⟨"c", "P", 10⟩, ⟨"c", "P", 11⟩]
        [⟨"c_1", "S", 10, "1.1.1.1"⟩] 5).2.2
        ⟨"c_1", "S", 10, "1.1.1.1"⟩ (by simp) 0 (by decide)
        (by norm_num) (by intro j hj; omega) (by decide)
    simpa using h
  · exact (C1_matcher_one_match_per_product cA [⟨"c", "P", 10⟩, ⟨"c", "P", 11⟩]
        [⟨"c_1", "S", 10, "1.1.1.1"⟩] 5).1

/-- C10 witness: the wildcard-bearing candidate `*C` is rejected under
the permissive configuration, and the concrete run's written product
`M` is wildcard-free. -/
theorem C10_wildcard_witness :
    match_conditions cA cfg0 (some "*C") = false ∧
    str_contains "M" '*' = false := by
  refine ⟨C10_wildcard_rejected.1 cA cfg0 "*C" (by decide), ?_⟩
  exact C10_wildcard_rejected.2 cA cfg0 rule1 "c1" "B"
    [⟨"c1", "B", "R00001", "c1_0", "M", "B>>P", "1.1.1.1"⟩]
    (fun t ht => by
      unfold uncharge_smiles
      rcases hp : cA.parse t with _ | m
      · exact ht
      · exact rfl)
    (by decide)
    ⟨"c1", "B", "R00001", "c1_0", "M", "B>>P", "1.1.1.1"⟩ (by decide)

end BioCat
